import Mathlib

/-!
Verification development for the FM synthesizer `oppo.py`.

The Python source is embedded shallowly:

* Python floats are idealised as exact rationals (`ℚ`) for all envelope and
  timeline arithmetic; wavetable entries, which are values of `Real.sin`, live
  in `ℝ`.
* `Operator` and `Voice` become Lean structures with the same fields.
* Python `round(x, 2)` (banker's rounding) becomes `round2`, Python `int()`
  (truncation toward zero) becomes `truncQ` / `truncR`, Python `%` on a
  positive modulus becomes `Int.fract` (floats) and `Int.emod` (ints), both of
  which return a representative in `[0, modulus)` exactly as Python does.
* `random.random()` draws are passed explicitly: `randomize` takes the six
  uniform draws it consumes, `reset` / `sampleAt` take the four-by-six draws a
  full reset consumes.
* A Python `ZeroDivisionError` is modelled by `Except.error ()`: every literal
  division of the source is guarded by an explicit zero test of its
  denominator, and fallible computations return `Except Unit _`.
-/

namespace OPPO

/-- One FM operator, mirroring `Operator.__init__` in `oppo.py`:
`index`, frequency `f`, attack `a`, decay `d`, sustain `s`, release `r`,
modulation depth `k`. -/
structure Operator where
  index : ℤ
  f : ℚ
  a : ℚ
  d : ℚ
  s : ℚ
  r : ℚ
  k : ℚ
deriving DecidableEq

/-- The default operator `Operator()`: `i=1, f=440.0, a=0.1, d=0.1, s=1.0,
r=0.1, k=1.0`. -/
def defaultOperator : Operator :=
  { index := 1, f := 440, a := 0.1, d := 0.1, s := 1.0, r := 0.1, k := 1.0 }

/-- A voice, mirroring `Voice.__init__`: four operators plus the two
timeline marks `note_on` and `note_off`. -/
structure Voice where
  op1 : Operator
  op2 : Operator
  op3 : Operator
  op4 : Operator
  note_on : ℚ
  note_off : ℚ
deriving DecidableEq

/-- The default voice `Voice()`: four default operators,
`note_on = note_off = 0.0`. -/
def defaultVoice : Voice :=
  { op1 := defaultOperator, op2 := defaultOperator, op3 := defaultOperator,
    op4 := defaultOperator, note_on := 0, note_off := 0 }

/-- Embedding of `Operator.tableLength = 256`. -/
def tableLength : ℕ := 256

/-- The wavetable `Operator.sine`: entry `i` of
`np.sin(np.linspace(0, 2*pi, 256, endpoint=False))`, i.e.
`sin(2*pi*i/256)`. -/
noncomputable def sineTable (i : ℕ) : ℝ :=
  Real.sin (2 * Real.pi * i / (tableLength : ℝ))

/-- Python `int()` on a rational value: truncation toward zero. -/
def truncQ (x : ℚ) : ℤ := if 0 ≤ x then ⌊x⌋ else -⌊-x⌋

/-- Python `int()` on a real value: truncation toward zero. -/
noncomputable def truncR (x : ℝ) : ℤ := if 0 ≤ x then ⌊x⌋ else -⌊-x⌋

/-- Embedding of `Operator.sineIndex(t) = int((self.f * t) % 1 * self.tableLength)`.
Python's `%` with modulus `1` returns the fractional part in `[0, 1)`
(`Int.fract`), and `int()` truncates. -/
def sineIndex (op : Operator) (t : ℚ) : ℕ :=
  (truncQ (Int.fract (op.f * t) * (tableLength : ℚ))).toNat

/-- The table index computed on line 72 of `oppo.py`:
`(self.sineIndex(t) + int(mk * msamp)) % self.tableLength`.
`msamp` is the modulator's (real-valued) sample, `int()` truncates toward
zero, and Python's integer `%` with positive modulus is `Int.emod`. -/
noncomputable def fmIndexZ (op : Operator) (t : ℚ) (msamp : ℝ) (mk : ℚ) : ℤ :=
  ((sineIndex op t : ℤ) + truncR ((mk : ℝ) * msamp)) % (tableLength : ℤ)

/-- Embedding of `Operator.sAmp(time, note_on, note_off)`, the ADSR envelope
amplitude.
Each division of the source carries an explicit zero test of its denominator;
a zero denominator is Python's `ZeroDivisionError`, modelled as
`Except.error ()`. -/
def sAmpE (op : Operator) (time note_on note_off : ℚ) : Except Unit ℚ :=
  let l := time - note_on
  if note_on > note_off then
    if l < op.a then
      if op.a = 0 then Except.error () else Except.ok (l / op.a)
    else if l < op.a + op.d then
      if op.d = 0 then Except.error ()
      else Except.ok ((l - op.a) / op.d * (op.s - 1) + 1)
    else
      Except.ok op.s
  else
    let r_time := time - note_off
    if r_time < op.r then
      if op.r = 0 then Except.error ()
      else Except.ok (op.s * (1 - r_time / op.r))
    else
      Except.ok 0

/-- Embedding of `Operator.sOscFM(t, note_on, note_off, msamp, mk)`:
`sAmp(t, note_on, note_off) * sine[(sineIndex(t) + int(mk*msamp)) % 256]`. -/
noncomputable def sOscFME (op : Operator) (t note_on note_off : ℚ)
    (msamp : ℝ) (mk : ℚ) : Except Unit ℝ :=
  Except.map (fun amp : ℚ => (amp : ℝ) * sineTable (fmIndexZ op t msamp mk).toNat)
    (sAmpE op t note_on note_off)

/-- Embedding of `Operator.sOsc(t, note_on, note_off)`:
`sAmp(t, note_on, note_off) * sine[sineIndex(t)]`. -/
noncomputable def sOscE (op : Operator) (t note_on note_off : ℚ) :
    Except Unit ℝ :=
  Except.map (fun amp : ℚ => (amp : ℝ) * sineTable (sineIndex op t))
    (sAmpE op t note_on note_off)

/-- Half-even integer rounding of a rational, the rounding used by Python's
`round`: nearest integer, ties to the even neighbour. -/
def roundHE (y : ℚ) : ℤ :=
  let n := ⌊y⌋
  let frac := y - (n : ℚ)
  if frac < 1/2 then n
  else if 1/2 < frac then n + 1
  else if n % 2 = 0 then n else n + 1

/-- Python `round(x, 2)`: round `100*x` half-to-even, divide by 100. -/
def round2 (x : ℚ) : ℚ := ((roundHE (100 * x) : ℤ) : ℚ) / 100

/-- Embedding of `Operator.randomize()`, with the six uniform draws `u 0 .. u 5` of
`random.random()` (consumed in source order `f, a, d, s, r, k`) passed
explicitly:
`f = round(0.01 + u0*440, 2)`, `a = round(0.1 + u1*2, 2)`,
`d = round(0.01 + u2*2, 2)`, `s = round(0.01 + u3, 2)`,
`r = round(0.1 + u4*2, 2)`, `k = round(0.01 + u5*2000, 2)`. -/
def randomize (op : Operator) (u : Fin 6 → ℚ) : Operator :=
  { op with
    f := round2 (0.01 + u 0 * 440)
    a := round2 (0.1 + u 1 * 2)
    d := round2 (0.01 + u 2 * 2)
    s := round2 (0.01 + u 3)
    r := round2 (0.1 + u 4 * 2)
    k := round2 (0.01 + u 5 * 2000) }

/-- Embedding of `Voice.envLength()`:
`max(a1,a2,a3,a4) + max(d1,d2,d3,d4) + 0.25 + max(r1,r2,r3,r4)`. -/
def envLengthV (v : Voice) : ℚ :=
  max (max (max v.op1.a v.op2.a) v.op3.a) v.op4.a +
    max (max (max v.op1.d v.op2.d) v.op3.d) v.op4.d +
    0.25 + max (max (max v.op1.r v.op2.r) v.op3.r) v.op4.r

/-- Embedding of `Voice.reset()`, with the four-by-six random draws passed explicitly
(`u i` feeds `op(i+1).randomize()`): randomize all four operators, then
`new = self.envLength(); self.note_on = self.note_on + new;
self.note_off = self.note_on + new` (the second line reads the already
updated `note_on`). The diagnostic `dump()` is output only and is not
modelled. -/
def resetV (v : Voice) (u : Fin 4 → Fin 6 → ℚ) : Voice :=
  let o1 := randomize v.op1 (u 0)
  let o2 := randomize v.op2 (u 1)
  let o3 := randomize v.op3 (u 2)
  let o4 := randomize v.op4 (u 3)
  let nv : Voice := { v with op1 := o1, op2 := o2, op3 := o3, op4 := o4 }
  let new := envLengthV nv
  { nv with note_on := v.note_on + new, note_off := v.note_on + new + new }

/-- The sample value computed by lines 28-29 of `Voice.sampleAt` before the
retrigger check: `op1.sOscFM(t, on, off, op2.sOsc(t, on, off), op2.k)
+ op3.sOscFM(t, on, off, op4.sOsc(t, on, off), op4.k)`, with Python's
left-to-right evaluation (and hence exception) order. -/
noncomputable def sampleValue (v : Voice) (t : ℚ) : Except Unit ℝ := do
  let m2 ← sOscE v.op2 t v.note_on v.note_off
  let s1 ← sOscFME v.op1 t v.note_on v.note_off m2 v.op2.k
  let m4 ← sOscE v.op4 t v.note_on v.note_off
  let s2 ← sOscFME v.op3 t v.note_on v.note_off m4 v.op4.k
  return s1 + s2

/-- Embedding of `Voice.sampleAt(t)`: compute the sample, then
`if t > self.note_off + max(self.op1.r, self.op3.r) + 0.25: self.reset()`,
and return the already-computed sample.  The result pairs the returned
sample with the voice state after the call; an uncaught Python exception is
`Except.error ()`. -/
noncomputable def sampleAt (v : Voice) (t : ℚ) (u : Fin 4 → Fin 6 → ℚ) :
    Except Unit (ℝ × Voice) := do
  let m2 ← sOscE v.op2 t v.note_on v.note_off
  let s1 ← sOscFME v.op1 t v.note_on v.note_off m2 v.op2.k
  let m4 ← sOscE v.op4 t v.note_on v.note_off
  let s2 ← sOscFME v.op3 t v.note_on v.note_off m4 v.op4.k
  let s := s1 + s2
  if v.note_off + max v.op1.r v.op3.r + 0.25 < t then
    return (s, resetV v u)
  else
    return (s, v)

/-- The time offsets one invocation of the audio `callback` feeds to the
voice: `t = np.arange(frames) / samplerate`, i.e. `i / samplerate` for
`i = 0, ..., frames-1`, independent of which block is being rendered. -/
def blockTimes (frames : ℕ) (samplerate : ℚ) : List ℚ :=
  (List.range frames).map fun i => (i : ℚ) / samplerate

/-- Definition following the specification's words for `reset()`'s envelope
length: `max(all attacks) + max(all decays) + 0.25 +
max(op1.release, op3.release)` — the releases of the two carriers only.
Stated for comparison with the source's `envLengthV`. -/
def specEnvLength (v : Voice) : ℚ :=
  max (max (max v.op1.a v.op2.a) v.op3.a) v.op4.a +
    max (max (max v.op1.d v.op2.d) v.op3.d) v.op4.d +
    0.25 + max v.op1.r v.op3.r

/-- Definition following the specification's words for `fmOscillator`:
`index = (phaseIndex(t) + floor(modulatorDepth * modulatorSample)) mod
tableLength; result = envelopeAmplitude(t,...) * wavetable[index]` — the
displacement is the mathematical floor.  Stated for comparison with the
source's `sOscFME`. -/
noncomputable def specSOscFM (op : Operator) (t note_on note_off : ℚ)
    (msamp : ℝ) (mk : ℚ) : Except Unit ℝ :=
  Except.map
    (fun amp : ℚ => (amp : ℝ) *
      sineTable ((((sineIndex op t : ℤ) + ⌊(mk : ℝ) * msamp⌋) %
        (tableLength : ℤ)).toNat))
    (sAmpE op t note_on note_off)

/-! ## Helper lemmas -/

theorem roundHE_ge_floor (y : ℚ) : ⌊y⌋ ≤ roundHE y := by
  simp only [roundHE]
  split_ifs <;> omega

theorem roundHE_le_floor_add_one (y : ℚ) : roundHE y ≤ ⌊y⌋ + 1 := by
  simp only [roundHE]
  split_ifs <;> omega

theorem round2_ge (lo : ℤ) (x : ℚ) (h : (lo : ℚ) / 100 ≤ x) :
    (lo : ℚ) / 100 ≤ round2 x := by
  have h1 : (lo : ℚ) ≤ 100 * x := by linarith
  have h2 : lo ≤ ⌊100 * x⌋ := Int.le_floor.mpr h1
  have h3 : lo ≤ roundHE (100 * x) := le_trans h2 (roundHE_ge_floor _)
  unfold round2
  have : (lo : ℚ) ≤ (roundHE (100 * x) : ℚ) := by exact_mod_cast h3
  linarith

theorem round2_le (hi : ℤ) (x : ℚ) (h : x < (hi : ℚ) / 100) :
    round2 x ≤ (hi : ℚ) / 100 := by
  have h1 : 100 * x < (hi : ℚ) := by linarith
  have h2 : ⌊100 * x⌋ < hi := Int.floor_lt.mpr h1
  have h3 : roundHE (100 * x) ≤ hi :=
    le_trans (roundHE_le_floor_add_one _) (by omega)
  unfold round2
  have : (roundHE (100 * x) : ℚ) ≤ (hi : ℚ) := by exact_mod_cast h3
  linarith

/-- The envelope never fails as long as the attack and release durations are
nonzero (the decay test on line 83 already shields the decay division). -/
theorem sAmpE_ok_of_ne (op : Operator) (t note_on note_off : ℚ)
    (ha : op.a ≠ 0) (hr : op.r ≠ 0) :
    ∃ q, sAmpE op t note_on note_off = Except.ok q := by
  simp only [sAmpE]
  split_ifs <;>
    first
      | exact ⟨_, rfl⟩
      | exact absurd ‹op.a = 0› ha
      | exact absurd ‹op.r = 0› hr
      | (exfalso; linarith)

theorem exceptMap_ok {α β : Type} (f : α → β) (a : α) :
    Except.map f (Except.ok a : Except Unit α) = Except.ok (f a) := rfl

theorem exceptMap_error {α β : Type} (f : α → β) (e : Unit) :
    Except.map f (Except.error e : Except Unit α) = Except.error e := rfl

theorem exceptBind_ok {α β : Type} (a : α) (f : α → Except Unit β) :
    (Except.ok a : Except Unit α) >>= f = f a := rfl

theorem exceptBind_error {α β : Type} (e : Unit) (f : α → Except Unit β) :
    (Except.error e : Except Unit α) >>= f = Except.error e := rfl

/-- Decomposition: `sampleAt` is `sampleValue` paired with the state transition: the state
after the call is `resetV v u` when the retrigger condition holds and `v`
otherwise. -/
theorem sampleAt_eq (v : Voice) (t : ℚ) (u : Fin 4 → Fin 6 → ℚ) :
    sampleAt v t u =
      (sampleValue v t).map fun s =>
        (s, if v.note_off + max v.op1.r v.op3.r + 0.25 < t then resetV v u
            else v) := by
  unfold sampleAt sampleValue
  cases h2 : sOscE v.op2 t v.note_on v.note_off with
  | error e => rfl
  | ok m2 =>
    rw [exceptBind_ok, exceptBind_ok]
    cases h1 : sOscFME v.op1 t v.note_on v.note_off m2 v.op2.k with
    | error e => rfl
    | ok s1 =>
      rw [exceptBind_ok, exceptBind_ok]
      cases h4 : sOscE v.op4 t v.note_on v.note_off with
      | error e => rfl
      | ok m4 =>
        rw [exceptBind_ok, exceptBind_ok]
        cases h3 : sOscFME v.op3 t v.note_on v.note_off m4 v.op4.k with
        | error e => rfl
        | ok s2 =>
          rw [exceptBind_ok, exceptBind_ok]
          split <;> rfl

theorem sineIndex_lt (op : Operator) (t : ℚ) : sineIndex op t < tableLength := by
  have h0 : (0 : ℚ) ≤ Int.fract (op.f * t) := Int.fract_nonneg _
  have h1 : Int.fract (op.f * t) < 1 := Int.fract_lt_one _
  have hx0 : (0 : ℚ) ≤ Int.fract (op.f * t) * (tableLength : ℚ) :=
    mul_nonneg h0 (by norm_num [tableLength])
  have hx1 : Int.fract (op.f * t) * (tableLength : ℚ) < (tableLength : ℚ) := by
    have h2 : (0 : ℚ) < (tableLength : ℚ) := by norm_num [tableLength]
    nlinarith
  have hfl0 : 0 ≤ ⌊Int.fract (op.f * t) * (tableLength : ℚ)⌋ :=
    Int.floor_nonneg.mpr hx0
  have hfl : ⌊Int.fract (op.f * t) * (tableLength : ℚ)⌋ < (tableLength : ℤ) :=
    Int.floor_lt.mpr (by exact_mod_cast hx1)
  simp only [sineIndex, truncQ, if_pos hx0]
  omega

/-! ## The claims -/

/-- Claim C10: for every frequency and every time, including negative
`f * t`, `sineIndex` lands in `[0, tableLength)`, and the FM-displaced index
of `sOscFM` also lands in `[0, tableLength)`, so every wavetable lookup made
by `sOsc` and `sOscFM` is within the 256-entry table's bounds. -/
theorem C10_wavetable_indices_bounded (op : Operator) (t : ℚ) (msamp : ℝ)
    (mk : ℚ) :
    sineIndex op t < tableLength ∧
      0 ≤ fmIndexZ op t msamp mk ∧ fmIndexZ op t msamp mk < (tableLength : ℤ) := by
  refine ⟨sineIndex_lt op t, ?_, ?_⟩
  · unfold fmIndexZ
    exact Int.emod_nonneg _ (by norm_num [tableLength])
  · unfold fmIndexZ
    exact Int.emod_lt_of_pos _ (by norm_num [tableLength])

/-- Claim C9: when the retrigger condition does not hold
(`t ≤ note_off + max(op1.r, op3.r) + 0.25`), `sampleAt` leaves the whole
voice state unchanged: its state component is the original voice wherever
the sample evaluates at all. -/
theorem C9_sampleAt_pure_below_threshold (v : Voice) (t : ℚ)
    (u : Fin 4 → Fin 6 → ℚ)
    (h : t ≤ v.note_off + max v.op1.r v.op3.r + 0.25) :
    (sampleAt v t u).map Prod.snd = (sampleValue v t).map fun _ => v := by
  rw [sampleAt_eq]
  cases sampleValue v t with
  | error e => rfl
  | ok s =>
    have hif :
        (if v.note_off + max v.op1.r v.op3.r + 0.25 < t then resetV v u
          else v) = v := if_neg (not_lt.mpr h)
    simp [Except.map, hif]

/-- Claim C9 witness: the default voice sampled at `t = 0` (below the
threshold `0.35`). -/
theorem C9_witness :
    (sampleAt defaultVoice 0 fun _ _ => 0).map Prod.snd =
      (sampleValue defaultVoice 0).map fun _ => defaultVoice :=
  C9_sampleAt_pure_below_threshold defaultVoice 0 (fun _ _ => 0)
    (by norm_num [defaultVoice, defaultOperator])

/-- Claim C7 (code bug): the callback computes its time offsets as
`np.arange(frames) / samplerate`, restarting at zero on every block, so the
concatenation of two successive blocks is not strictly increasing. -/
theorem C7_callback_times_not_monotone :
    ¬ List.Chain' (fun a b : ℚ => a < b)
      (blockTimes 2 8000 ++ blockTimes 2 8000) := by
  have hb : blockTimes 2 8000 = [0, 1/8000] := by
    simp [blockTimes, List.range_succ]
  rw [hb]
  intro h
  simp only [List.cons_append, List.nil_append, List.chain'_cons] at h
  obtain ⟨-, h2, -⟩ := h
  norm_num at h2

/-- Operator with a zero-length attack segment (all other fields default). -/
def opAZero : Operator := { defaultOperator with a := 0 }

/-- Claim C6 counterexample: with `attack = 0`, a held note evaluated before
its `note_on` mark (`t = 1`, `note_on = 5`, `note_off = 4`) reaches the
attack branch with `l = -4 < 0 = a` and computes `l / 0` — Python's
`ZeroDivisionError`, not an instantaneous jump. -/
theorem C6_cex : sAmpE opAZero 1 5 4 = Except.error () := by
  norm_num [sAmpE, opAZero, defaultOperator]

/-- Claim C6 (amended): a zero decay never divides by zero; a zero attack
(held) or zero release (released) divides by zero only when `t` lies before
the respective timeline mark — whenever `t` is at or past the mark the
zero-duration segment is skipped as an instantaneous jump and the envelope
evaluates without failure. -/
theorem C6_zero_segments_no_failure (op : Operator) (t note_on note_off : ℚ)
    (h1 : op.a = 0 → note_off < note_on → note_on ≤ t)
    (h2 : op.r = 0 → ¬ note_off < note_on → note_off ≤ t) :
    ∃ q, sAmpE op t note_on note_off = Except.ok q := by
  simp only [sAmpE]
  split_ifs <;>
    first
      | exact ⟨_, rfl⟩
      | (exfalso
         have := h1 ‹op.a = 0› ‹note_off < note_on›
         linarith)
      | (exfalso
         have := h2 ‹op.r = 0› ‹¬ note_off < note_on›
         linarith)
      | (exfalso; linarith)

/-- Claim C6 witness: attack 0, held note at `t = 6 ≥ note_on = 5`: the
envelope evaluates without failure. -/
theorem C6_witness : ∃ q, sAmpE opAZero 6 5 4 = Except.ok q :=
  C6_zero_segments_no_failure opAZero 6 5 4 (fun _ _ => by norm_num)
    (fun hr0 _ => absurd hr0 (by norm_num [opAZero, defaultOperator]))

/-- Evaluating `randomize` on the all-zero draws: every field takes its
lower bound. -/
theorem randomize_zero (op : Operator) :
    randomize op (fun _ => 0) =
      { op with
        f := 0.01
        a := 0.1
        d := 0.01
        s := 0.01
        r := 0.1
        k := 0.01 } := by
  norm_num [randomize, round2, roundHE]

/-- Evaluating `randomize` on the all-`0.95` draws. -/
theorem randomize_big (op : Operator) :
    randomize op (fun _ => 19/20) =
      { op with
        f := 418.01
        a := 2
        d := 1.91
        s := 0.96
        r := 2
        k := 1900.01 } := by
  norm_num [randomize, round2, roundHE]

/-- Draws for the C3 counterexample: op2 draws `0.95` everywhere (so its
release becomes `2.0`), every other operator draws `0`. -/
def uC3 : Fin 4 → Fin 6 → ℚ :=
  fun i _ => if i = 1 then 19/20 else 0

/-- Claim C3 counterexample: `envLength` takes the maximum over ALL FOUR
releases, not only the two carriers'.  With op2 (a modulator) drawing
release `2.0` and the carriers' releases `0.1`, `reset` advances `note_on`
by `6.16`, not by the spec formula's `4.26`. -/
theorem C3_cex :
    (resetV defaultVoice uC3).note_on ≠
      defaultVoice.note_on + specEnvLength (resetV defaultVoice uC3) := by
  have h0 : uC3 0 = fun _ => (0 : ℚ) := by funext j; simp [uC3]
  have h1 : uC3 1 = fun _ => (19 : ℚ)/20 := by funext j; simp [uC3]
  have h2 : uC3 2 = fun _ => (0 : ℚ) := by funext j; simp [uC3]
  have h3 : uC3 3 = fun _ => (0 : ℚ) := by funext j; simp [uC3]
  simp only [resetV, h0, h1, h2, h3, randomize_zero, randomize_big,
    envLengthV, specEnvLength]
  norm_num [defaultVoice, defaultOperator, max_def]

/-- Claim C3 (amended): `reset()` computes the envelope length as
`max(all four attacks) + max(all four decays) + 0.25 + max(all four
releases)` — including the modulators' releases — and then advances
`note_on` by it and sets `note_off` to the new `note_on` plus it again. -/
theorem C3_reset_envelope_arithmetic (v : Voice) (u : Fin 4 → Fin 6 → ℚ) :
    (resetV v u).note_on = v.note_on + envLengthV (resetV v u) ∧
      (resetV v u).note_off = (resetV v u).note_on + envLengthV (resetV v u) ∧
      envLengthV (resetV v u) =
        max (max (max (resetV v u).op1.a (resetV v u).op2.a)
            (resetV v u).op3.a) (resetV v u).op4.a +
          max (max (max (resetV v u).op1.d (resetV v u).op2.d)
            (resetV v u).op3.d) (resetV v u).op4.d +
          0.25 +
          max (max (max (resetV v u).op1.r (resetV v u).op2.r)
            (resetV v u).op3.r) (resetV v u).op4.r :=
  ⟨rfl, rfl, rfl⟩

/-- Large draws (`0.95` everywhere) for the first reset of the C1
counterexample. -/
def uBigDraws : Fin 4 → Fin 6 → ℚ := fun _ _ => 19/20

/-- Minimal draws (`0` everywhere). -/
def uZeroDraws : Fin 4 → Fin 6 → ℚ := fun _ _ => 0

/-- Claim C1 counterexample: starting from the initial voice, a reset with
large draws (envelope length `6.16`, `note_off = 12.32`) followed by a reset
with minimal draws (envelope length `0.46`) DEcreases `note_off` (to `7.08`),
and the voice ends with `note_on < note_off` — the RELEASED region of the
discriminator, not the held one. -/
theorem C1_cex :
    (resetV (resetV defaultVoice uBigDraws) uZeroDraws).note_off <
        (resetV defaultVoice uBigDraws).note_off ∧
      ¬ (resetV (resetV defaultVoice uBigDraws) uZeroDraws).note_on >
          (resetV (resetV defaultVoice uBigDraws) uZeroDraws).note_off := by
  have hb : ∀ i : Fin 4, uBigDraws i = fun _ => (19 : ℚ)/20 := fun _ => rfl
  have hz : ∀ i : Fin 4, uZeroDraws i = fun _ => (0 : ℚ) := fun _ => rfl
  simp only [resetV, hb, hz, randomize_zero, randomize_big, envLengthV]
  norm_num [defaultVoice, defaultOperator, max_def]

theorem envLengthV_reset_pos (v : Voice) (u : Fin 4 → Fin 6 → ℚ)
    (h : ∀ i j, 0 ≤ u i j) : 0 < envLengthV (resetV v u) := by
  have ha1 : (1 : ℚ)/10 ≤ (resetV v u).op1.a := by
    show (1 : ℚ)/10 ≤ round2 (0.1 + u 0 1 * 2)
    have h10 : (((10 : ℤ) : ℚ))/100 = 1/10 := by norm_num
    rw [← h10]
    exact round2_ge 10 _ (by have := h 0 1; push_cast; linarith)
  have hd1 : (1 : ℚ)/100 ≤ (resetV v u).op1.d := by
    show (1 : ℚ)/100 ≤ round2 (0.01 + u 0 2 * 2)
    have h01 : (((1 : ℤ) : ℚ))/100 = 1/100 := by norm_num
    rw [← h01]
    exact round2_ge 1 _ (by have := h 0 2; push_cast; linarith)
  have hr1 : (1 : ℚ)/10 ≤ (resetV v u).op1.r := by
    show (1 : ℚ)/10 ≤ round2 (0.1 + u 0 4 * 2)
    have h10 : (((10 : ℤ) : ℚ))/100 = 1/10 := by norm_num
    rw [← h10]
    exact round2_ge 10 _ (by have := h 0 4; push_cast; linarith)
  have hA := le_trans ha1 (le_trans (le_trans
    (le_max_left (resetV v u).op1.a (resetV v u).op2.a)
    (le_max_left _ (resetV v u).op3.a)) (le_max_left _ (resetV v u).op4.a))
  have hD := le_trans hd1 (le_trans (le_trans
    (le_max_left (resetV v u).op1.d (resetV v u).op2.d)
    (le_max_left _ (resetV v u).op3.d)) (le_max_left _ (resetV v u).op4.d))
  have hR := le_trans hr1 (le_trans (le_trans
    (le_max_left (resetV v u).op1.r (resetV v u).op2.r)
    (le_max_left _ (resetV v u).op3.r)) (le_max_left _ (resetV v u).op4.r))
  unfold envLengthV
  linarith

/-- Claim C1 (amended): with the uniform draws nonnegative, `reset()`
strictly increases `note_on`, and sets `note_off` to the new `note_on` plus
the (positive) envelope length; hence immediately after `reset` the voice
satisfies `note_on < note_off` — the RELEASED region of the
timestamp-comparison discriminator, not the held one — and `note_off` itself
need not increase (see the counterexample). -/
theorem C1_reset_advances (v : Voice) (u : Fin 4 → Fin 6 → ℚ)
    (h : ∀ i j, 0 ≤ u i j) :
    v.note_on < (resetV v u).note_on ∧
      (resetV v u).note_off = (resetV v u).note_on + envLengthV (resetV v u) ∧
      (resetV v u).note_on < (resetV v u).note_off := by
  have hL := envLengthV_reset_pos v u h
  refine ⟨?_, rfl, ?_⟩
  · show v.note_on < v.note_on + envLengthV (resetV v u)
    linarith
  · show v.note_on + envLengthV (resetV v u) <
      v.note_on + envLengthV (resetV v u) + envLengthV (resetV v u)
    linarith

/-- Claim C1 witness: reset of the default voice with all draws zero. -/
theorem C1_witness :
    defaultVoice.note_on < (resetV defaultVoice uZeroDraws).note_on ∧
      (resetV defaultVoice uZeroDraws).note_off =
        (resetV defaultVoice uZeroDraws).note_on +
          envLengthV (resetV defaultVoice uZeroDraws) ∧
      (resetV defaultVoice uZeroDraws).note_on <
        (resetV defaultVoice uZeroDraws).note_off :=
  C1_reset_advances defaultVoice uZeroDraws (fun _ _ => le_refl 0)

/-- Claim C2 counterexample: with the default voice the threshold is
`0.35`; sampling at `t = 100` triggers a reset (the post-state is the reset
voice), but the UPDATED condition at the same `t = 100` is still true (the
new threshold is only `1.27`), contradicting "the updated condition is false
again at t"; the next sample past the stale threshold resets again. -/
theorem C2_cex :
    defaultVoice.note_off + max defaultVoice.op1.r defaultVoice.op3.r +
        0.25 < 100 ∧
      (sampleAt defaultVoice 100 uZeroDraws).map Prod.snd =
        (sampleValue defaultVoice 100).map
          (fun _ => resetV defaultVoice uZeroDraws) ∧
      (resetV defaultVoice uZeroDraws).note_off +
          max (resetV defaultVoice uZeroDraws).op1.r
            (resetV defaultVoice uZeroDraws).op3.r + 0.25 < 100 := by
  have hc : defaultVoice.note_off + max defaultVoice.op1.r
      defaultVoice.op3.r + 0.25 < (100 : ℚ) := by
    norm_num [defaultVoice, defaultOperator]
  refine ⟨hc, ?_, ?_⟩
  · rw [sampleAt_eq]
    cases sampleValue defaultVoice 100 with
    | error e => rfl
    | ok s => simp [Except.map, hc]
  · have hz : ∀ i : Fin 4, uZeroDraws i = fun _ => (0 : ℚ) := fun _ => rfl
    simp only [resetV, hz, randomize_zero, envLengthV]
    norm_num [defaultVoice, defaultOperator, max_def]

/-- Claim C2 (amended): when the retrigger condition holds at `t`,
`sampleAt` performs exactly one reset in that call (the post-state is
`resetV v u` wherever the sample evaluates at all), and the updated
threshold equals `note_on + 2 * envelopeLength(new operators) +
max(new op1.r, new op3.r) + 0.25`; the condition at the same `t` becomes
false again only when `t` does not exceed this advanced threshold, which the
trigger condition does not guarantee (see the counterexample), so a single
crossing far past the threshold retriggers on consecutive samples. -/
theorem C2_retrigger_one_reset_per_call (v : Voice) (t : ℚ)
    (u : Fin 4 → Fin 6 → ℚ)
    (ht : v.note_off + max v.op1.r v.op3.r + 0.25 < t) :
    (sampleAt v t u).map Prod.snd =
        (sampleValue v t).map (fun _ => resetV v u) ∧
      (resetV v u).note_off + max (resetV v u).op1.r (resetV v u).op3.r +
          0.25 =
        v.note_on + 2 * envLengthV (resetV v u) +
          max (resetV v u).op1.r (resetV v u).op3.r + 0.25 := by
  constructor
  · rw [sampleAt_eq]
    cases sampleValue v t with
    | error e => rfl
    | ok s => simp [Except.map, ht]
  · have hoff : (resetV v u).note_off =
        v.note_on + 2 * envLengthV (resetV v u) := by
      show v.note_on + envLengthV (resetV v u) + envLengthV (resetV v u) = _
      ring
    rw [hoff]

/-- Claim C2 witness: the default voice triggered at `t = 100`. -/
theorem C2_witness :
    (sampleAt defaultVoice 100 uBigDraws).map Prod.snd =
        (sampleValue defaultVoice 100).map
          (fun _ => resetV defaultVoice uBigDraws) ∧
      (resetV defaultVoice uBigDraws).note_off +
          max (resetV defaultVoice uBigDraws).op1.r
            (resetV defaultVoice uBigDraws).op3.r + 0.25 =
        defaultVoice.note_on +
            2 * envLengthV (resetV defaultVoice uBigDraws) +
          max (resetV defaultVoice uBigDraws).op1.r
            (resetV defaultVoice uBigDraws).op3.r + 0.25 :=
  C2_retrigger_one_reset_per_call defaultVoice 100 uBigDraws
    (by norm_num [defaultVoice, defaultOperator])

/-- The voice used in the C4 counterexample: carrier op1 has a zero-length
attack, and the note marks are `note_on = 5 > note_off = 4` (held), so
evaluating at `t = 1 < note_on` reaches the attack branch with a zero
denominator. -/
def vErr : Voice := { defaultVoice with op1 := opAZero, note_on := 5, note_off := 4 }

/-- Claim C4 counterexample: `sampleAt` has no exception handler — the
envelope failure of op1 propagates out of the call as an error instead of
being replaced by silence `0.0`. -/
theorem C4_cex : sampleAt vErr 1 uZeroDraws = Except.error () := by
  have h1 : sAmpE vErr.op1 1 vErr.note_on vErr.note_off = Except.error () := by
    norm_num [sAmpE, vErr, opAZero, defaultVoice, defaultOperator]
  have h2 : ∃ q, sAmpE vErr.op2 1 vErr.note_on vErr.note_off = Except.ok q :=
    sAmpE_ok_of_ne _ _ _ _ (by norm_num [vErr, defaultVoice, defaultOperator])
      (by norm_num [vErr, defaultVoice, defaultOperator])
  obtain ⟨q2, hq2⟩ := h2
  have hosc2 : sOscE vErr.op2 1 vErr.note_on vErr.note_off =
      Except.ok ((q2 : ℝ) * sineTable (sineIndex vErr.op2 1)) := by
    unfold sOscE
    rw [hq2]
    rfl
  have hosc1 : ∀ msamp : ℝ,
      sOscFME vErr.op1 1 vErr.note_on vErr.note_off msamp vErr.op2.k =
        Except.error () := by
    intro msamp
    unfold sOscFME
    rw [h1]
    rfl
  unfold sampleAt
  rw [hosc2, exceptBind_ok, hosc1, exceptBind_error]

/-- Claim C4 (amended): `sampleAt` contains no handler, so a failing sample
evaluation propagates (see the counterexample); however, whenever every
operator has nonzero attack and release — which both the defaults and
`randomize`'s ranges guarantee — no sample evaluation can fail and
`sampleAt` always returns normally. -/
theorem C4_no_failure_with_nonzero_durations (v : Voice) (t : ℚ)
    (u : Fin 4 → Fin 6 → ℚ)
    (h1a : v.op1.a ≠ 0) (h1r : v.op1.r ≠ 0) (h2a : v.op2.a ≠ 0)
    (h2r : v.op2.r ≠ 0) (h3a : v.op3.a ≠ 0) (h3r : v.op3.r ≠ 0)
    (h4a : v.op4.a ≠ 0) (h4r : v.op4.r ≠ 0) :
    ∃ s w, sampleAt v t u = Except.ok (s, w) := by
  obtain ⟨q1, hq1⟩ := sAmpE_ok_of_ne v.op1 t v.note_on v.note_off h1a h1r
  obtain ⟨q2, hq2⟩ := sAmpE_ok_of_ne v.op2 t v.note_on v.note_off h2a h2r
  obtain ⟨q3, hq3⟩ := sAmpE_ok_of_ne v.op3 t v.note_on v.note_off h3a h3r
  obtain ⟨q4, hq4⟩ := sAmpE_ok_of_ne v.op4 t v.note_on v.note_off h4a h4r
  unfold sampleAt
  simp only [sOscE, sOscFME, hq1, hq2, hq3, hq4, Except.map_ok,
    exceptBind_ok]
  split <;> exact ⟨_, _, rfl⟩

/-- Claim C4 witness: the default voice at `t = 0` returns normally. -/
theorem C4_witness : ∃ s w, sampleAt defaultVoice 0 uZeroDraws =
    Except.ok (s, w) :=
  C4_no_failure_with_nonzero_durations defaultVoice 0 uZeroDraws
    (by norm_num [defaultVoice, defaultOperator])
    (by norm_num [defaultVoice, defaultOperator])
    (by norm_num [defaultVoice, defaultOperator])
    (by norm_num [defaultVoice, defaultOperator])
    (by norm_num [defaultVoice, defaultOperator])
    (by norm_num [defaultVoice, defaultOperator])
    (by norm_num [defaultVoice, defaultOperator])
    (by norm_num [defaultVoice, defaultOperator])

/-- Claim C5 counterexample: Python's `int()` truncates toward zero, it does
not floor.  With `mk * msamp = -1/2` the code displaces the carrier index by
`int(-1/2) = 0` while the spec's floor formula displaces it by `-1`
(index 255), and the two results differ: the envelope is at sustain `1`, the
code reads `sine[0] = 0`, the spec formula reads `sine[255] = sin(2π·255/256)
< 0`. -/
theorem C5_cex :
    sOscFME defaultOperator 1 0 (-1) (-(1/2) : ℝ) 1 ≠
      specSOscFM defaultOperator 1 0 (-1) (-(1/2) : ℝ) 1 := by
  have hamp : sAmpE defaultOperator 1 0 (-1) = Except.ok 1 := by
    norm_num [sAmpE, defaultOperator]
  have harg : ((1 : ℚ) : ℝ) * (-(1/2) : ℝ) = -(1/2) := by norm_num
  have hsi : sineIndex defaultOperator 1 = 0 := by
    have h440 : Int.fract ((440 : ℚ) * 1) = 0 := by
      norm_num [Int.fract]
    norm_num [sineIndex, truncQ, defaultOperator, h440]
  have htr : truncR (-(1/2) : ℝ) = 0 := by
    have hfl : ⌊((1:ℝ)/2)⌋ = 0 := by
      rw [Int.floor_eq_iff]
      norm_num
    unfold truncR
    rw [if_neg (by norm_num)]
    norm_num [hfl]
  have hflneg : ⌊(-(1/2) : ℝ)⌋ = -1 := by
    rw [Int.floor_eq_iff]
    norm_num
  have hL : sOscFME defaultOperator 1 0 (-1) (-(1/2) : ℝ) 1 =
      Except.ok ((1 : ℝ) * sineTable 0) := by
    unfold sOscFME fmIndexZ
    rw [hamp, harg, hsi, htr]
    have hidx : ((((0 : ℕ) : ℤ) + 0) % ((tableLength : ℕ) : ℤ)).toNat = 0 := by
      decide
    simp only [hidx, exceptMap_ok]
    norm_num
  have hR : specSOscFM defaultOperator 1 0 (-1) (-(1/2) : ℝ) 1 =
      Except.ok ((1 : ℝ) * sineTable 255) := by
    unfold specSOscFM
    rw [hamp, harg, hsi, hflneg]
    have hmod : ((((0 : ℕ) : ℤ) + -1) % ((tableLength : ℕ) : ℤ)).toNat = 255 := by
      decide
    simp only [hmod, exceptMap_ok]
    norm_num
  have hs0 : sineTable 0 = 0 := by
    simp [sineTable]
  have hs255 : sineTable 255 < 0 := by
    unfold sineTable
    have harg2 : 2 * Real.pi * ((255 : ℕ) : ℝ) / ((tableLength : ℕ) : ℝ) =
        -(Real.pi/128) + 2 * Real.pi := by
      simp only [tableLength]
      push_cast
      ring
    rw [harg2, Real.sin_periodic _, Real.sin_neg]
    have hpos : 0 < Real.sin (Real.pi/128) :=
      Real.sin_pos_of_pos_of_lt_pi (by positivity)
        (div_lt_self Real.pi_pos (by norm_num))
    linarith
  intro heq
  rw [hL, hR] at heq
  have hval := Except.ok.inj heq
  rw [hs0] at hval
  nlinarith [hs255, hval]

/-- Claim C5 (amended): the displacement the code applies is the truncation
toward zero of `mk * msamp`, which coincides with the mathematical floor
exactly when `mk * msamp ≥ 0`; under that hypothesis `sOscFM` agrees with
the spec's floor-based formula (and differs for negative non-integer
displacements, see the counterexample). -/
theorem C5_fm_matches_floor_formula_on_nonneg (op : Operator)
    (t note_on note_off mk : ℚ) (msamp : ℝ)
    (h : 0 ≤ (mk : ℝ) * msamp) :
    sOscFME op t note_on note_off msamp mk =
      specSOscFM op t note_on note_off msamp mk := by
  unfold sOscFME specSOscFM fmIndexZ truncR
  simp only [h, if_true]

/-- Claim C5 witness: a nonnegative displacement `1 * (1/2)`. -/
theorem C5_witness :
    sOscFME defaultOperator 0 0 0 ((1:ℝ)/2) 1 =
      specSOscFM defaultOperator 0 0 0 ((1:ℝ)/2) 1 :=
  C5_fm_matches_floor_formula_on_nonneg defaultOperator 0 0 0 1 ((1:ℝ)/2)
    (by norm_num)

theorem round2_field_spec (lo hi : ℤ) (c m u1 : ℚ)
    (hu0 : 0 ≤ u1) (hu1 : u1 < 1) (hm : 0 < m)
    (hc : (lo : ℚ)/100 = c) (hhi : (hi : ℚ)/100 = c + m) :
    c ≤ round2 (c + u1 * m) ∧ round2 (c + u1 * m) ≤ c + m ∧
      ∃ n : ℤ, round2 (c + u1 * m) = (n : ℚ)/100 := by
  have h1 : (lo : ℚ)/100 ≤ c + u1 * m := by
    rw [hc]
    nlinarith
  have h2 : c + u1 * m < (hi : ℚ)/100 := by
    rw [hhi]
    nlinarith
  have g1 := round2_ge lo (c + u1 * m) h1
  rw [hc] at g1
  have g2 := round2_le hi (c + u1 * m) h2
  rw [hhi] at g2
  exact ⟨g1, g2, ⟨roundHE (100 * (c + u1 * m)), rfl⟩⟩

/-- Claim C8: with every uniform draw in `[0,1)`, `randomize` puts each
field inside its documented range — frequency in `[0.01, 440.01]`, attack in
`[0.1, 2.1]`, decay in `[0.01, 2.01]`, sustain in `[0.01, 1.01]`, release in
`[0.1, 2.1]`, modDepth in `[0.01, 2000.01]` (low bound inclusive; the high
end is reachable only by the final rounding step, matching "exclusive or
near the high bound") — each value an exact multiple of `0.01`, and touches
nothing else: the only other field, `index`, is preserved. -/
theorem C8_randomize_bounds (op : Operator) (u : Fin 6 → ℚ)
    (h : ∀ i, 0 ≤ u i ∧ u i < 1) :
    (0.01 ≤ (randomize op u).f ∧ (randomize op u).f ≤ 440.01 ∧
      ∃ n : ℤ, (randomize op u).f = (n : ℚ)/100) ∧
    (0.1 ≤ (randomize op u).a ∧ (randomize op u).a ≤ 2.1 ∧
      ∃ n : ℤ, (randomize op u).a = (n : ℚ)/100) ∧
    (0.01 ≤ (randomize op u).d ∧ (randomize op u).d ≤ 2.01 ∧
      ∃ n : ℤ, (randomize op u).d = (n : ℚ)/100) ∧
    (0.01 ≤ (randomize op u).s ∧ (randomize op u).s ≤ 1.01 ∧
      ∃ n : ℤ, (randomize op u).s = (n : ℚ)/100) ∧
    (0.1 ≤ (randomize op u).r ∧ (randomize op u).r ≤ 2.1 ∧
      ∃ n : ℤ, (randomize op u).r = (n : ℚ)/100) ∧
    (0.01 ≤ (randomize op u).k ∧ (randomize op u).k ≤ 2000.01 ∧
      ∃ n : ℤ, (randomize op u).k = (n : ℚ)/100) ∧
    (randomize op u).index = op.index := by
  have hf := round2_field_spec 1 44001 0.01 440 (u 0) (h 0).1 (h 0).2
    (by norm_num) (by norm_num) (by norm_num)
  have ha := round2_field_spec 10 210 0.1 2 (u 1) (h 1).1 (h 1).2
    (by norm_num) (by norm_num) (by norm_num)
  have hd := round2_field_spec 1 201 0.01 2 (u 2) (h 2).1 (h 2).2
    (by norm_num) (by norm_num) (by norm_num)
  have hs := round2_field_spec 1 101 0.01 1 (u 3) (h 3).1 (h 3).2
    (by norm_num) (by norm_num) (by norm_num)
  have hr := round2_field_spec 10 210 0.1 2 (u 4) (h 4).1 (h 4).2
    (by norm_num) (by norm_num) (by norm_num)
  have hk := round2_field_spec 1 200001 0.01 2000 (u 5) (h 5).1 (h 5).2
    (by norm_num) (by norm_num) (by norm_num)
  simp only [mul_one] at hs
  simp only [randomize]
  exact ⟨⟨hf.1, by linarith [hf.2.1], hf.2.2⟩,
    ⟨ha.1, by linarith [ha.2.1], ha.2.2⟩,
    ⟨hd.1, by linarith [hd.2.1], hd.2.2⟩,
    ⟨hs.1, by linarith [hs.2.1], hs.2.2⟩,
    ⟨hr.1, by linarith [hr.2.1], hr.2.2⟩,
    ⟨hk.1, by linarith [hk.2.1], hk.2.2⟩, trivial⟩

/-- Claim C8 witness: randomizing the default operator with all draws `1/2`. -/
theorem C8_witness :
    (0.01 ≤ (randomize defaultOperator fun _ => 1/2).f ∧
      (randomize defaultOperator fun _ => 1/2).f ≤ 440.01 ∧
      ∃ n : ℤ, (randomize defaultOperator fun _ => 1/2).f = (n : ℚ)/100) ∧
    (0.1 ≤ (randomize defaultOperator fun _ => 1/2).a ∧
      (randomize defaultOperator fun _ => 1/2).a ≤ 2.1 ∧
      ∃ n : ℤ, (randomize defaultOperator fun _ => 1/2).a = (n : ℚ)/100) ∧
    (0.01 ≤ (randomize defaultOperator fun _ => 1/2).d ∧
      (randomize defaultOperator fun _ => 1/2).d ≤ 2.01 ∧
      ∃ n : ℤ, (randomize defaultOperator fun _ => 1/2).d = (n : ℚ)/100) ∧
    (0.01 ≤ (randomize defaultOperator fun _ => 1/2).s ∧
      (randomize defaultOperator fun _ => 1/2).s ≤ 1.01 ∧
      ∃ n : ℤ, (randomize defaultOperator fun _ => 1/2).s = (n : ℚ)/100) ∧
    (0.1 ≤ (randomize defaultOperator fun _ => 1/2).r ∧
      (randomize defaultOperator fun _ => 1/2).r ≤ 2.1 ∧
      ∃ n : ℤ, (randomize defaultOperator fun _ => 1/2).r = (n : ℚ)/100) ∧
    (0.01 ≤ (randomize defaultOperator fun _ => 1/2).k ∧
      (randomize defaultOperator fun _ => 1/2).k ≤ 2000.01 ∧
      ∃ n : ℤ, (randomize defaultOperator fun _ => 1/2).k = (n : ℚ)/100) ∧
    (randomize defaultOperator fun _ => 1/2).index = defaultOperator.index :=
  C8_randomize_bounds defaultOperator (fun _ => 1/2)
    (fun _ => ⟨by norm_num, by norm_num⟩)

end OPPO
